import Mathlib

/-!
Verification of the shelf pattern-store core: a shallow embedding of the
TypeScript `PatternStore` (file-backed variant in `patternStore.ts`, relational
variant in `patternStorePostgres.ts`) and of `PatternExtractor`
(`patternExtractor.ts`), together with theorems about relevance search,
reinforcement, pattern application and pattern extraction.

Modelling conventions:
- JavaScript strings are `List Char`; `String.prototype.toLowerCase` is
  modelled character-wise by `Char.toLower` (the stored data is ASCII).
- JavaScript numbers are modelled as rationals (`ℚ`); every constant the code
  uses (0.3, 0.2, 0.5, 0.1, 0.05, 0.02, 0.85, 0.9) is written as the exact
  fraction the source literal denotes.
- `Date` timestamps are opaque rationals passed in explicitly (`now`).
- A JavaScript `Map` is an association structure that preserves insertion
  order; it is modelled as a `List` whose `set` operation (`mapSetP`,
  `mapSetE`) replaces in place or appends.
- `Array.prototype.sort` with a numeric comparator is a stable sort; it is
  modelled by the stable insertion sort `sortByDesc`.
-/

abbrev Str := List Char

/-- Character-wise lower-casing, modelling `String.prototype.toLowerCase`. -/
def lower (s : Str) : Str := s.map Char.toLower

/-- Does `hay` start with `pre`? (helper for the substring test). -/
def startsWithB : Str → Str → Bool
  | _, [] => true
  | [], _ :: _ => false
  | c :: cs, d :: ds => c == d && startsWithB cs ds

/-- JavaScript `hay.includes(needle)`: `needle` occurs in `hay` as a
contiguous substring.  The empty needle occurs in every string. -/
def substrB : Str → Str → Bool
  | [], needle => needle.isEmpty
  | c :: t, needle => startsWithB (c :: t) needle || substrB t needle

/-- Split a string at every single whitespace character (helper for
`splitWs`). -/
def splitSingle : Str → List Str
  | [] => [[]]
  | c :: t =>
    if c.isWhitespace then [] :: splitSingle t
    else
      match splitSingle t with
      | [] => [[c]]
      | w :: ws => (c :: w) :: ws

/-- Drop empty fields that are not the final field (helper for `splitWs`:
collapsing a run of separators into one). -/
def dropMid : List Str → List Str
  | [] => []
  | [w] => [w]
  | w :: v :: rest =>
    if w.isEmpty then dropMid (v :: rest) else w :: dropMid (v :: rest)

/-- JavaScript `s.split(/\s+/)`: split on maximal whitespace runs; a leading
run contributes a leading empty field, and the empty string yields `[""]`. -/
def splitWs (s : Str) : List Str :=
  match splitSingle s with
  | [] => []
  | w :: ws => w :: dropMid ws

/-- First-occurrence deduplication, modelling iteration over a JavaScript
`Set` built from a list. -/
def firstDedup : List Str → List Str
  | [] => []
  | x :: xs => x :: (firstDedup xs).filter (fun y => y ≠ x)

/-- Insert `x` into `l` before the first element whose key is smaller
(helper for the stable descending sort). -/
def insDesc (key : α → ℚ) (x : α) : List α → List α
  | [] => [x]
  | y :: ys => if key y ≤ key x then x :: y :: ys else y :: insDesc key x ys

/-- Stable sort by descending key, modelling
`Array.prototype.sort((a, b) => key(b) - key(a))`. -/
def sortByDesc (key : α → ℚ) (l : List α) : List α :=
  l.foldr (insDesc key) []

/-- Example outcome category; `neutral` models the source's `'partial'`. -/
inductive Outcome where
  | success
  | failure
  | neutral
deriving DecidableEq

/-- Relation type between patterns (`types.ts`). -/
inductive RelType where
  | leads_to
  | refined_by
  | conflicts_with
  | requires
deriving DecidableEq

/-- A pattern example (`types.ts` `PatternExample`). -/
structure PatternExample where
  input : Str
  output : Str
  outcome : Outcome
deriving DecidableEq

/-- A relation from one pattern to another (`types.ts` `PatternRelation`). -/
structure PatternRelation where
  type : RelType
  patternId : Str
  strength : ℚ
deriving DecidableEq

/-- A stored pattern (`types.ts` `Pattern`). -/
structure Pattern where
  id : Str
  name : Str
  context : List Str
  problem : Str
  solution : Str
  examples : List PatternExample
  relations : List PatternRelation
  confidence : ℚ
  usageCount : ℕ
  createdAt : ℚ
  lastUsedAt : Option ℚ := none
deriving DecidableEq

/-- A stored episode (`types.ts` `Episode`). -/
structure Episode where
  id : Str
  timestamp : ℚ
  context : Str
  actions : List Str
  outcome : Str
  patternIds : List Str
deriving DecidableEq

/-- One entry of a relevance-search result (`types.ts` `PatternSearchResult`). -/
structure PatternSearchResult where
  pattern : Pattern
  relevance : ℚ
  reason : Str
deriving DecidableEq

/-- State of the file-backed store: the two insertion-ordered maps. -/
structure StoreState where
  patterns : List Pattern
  episodes : List Episode
deriving DecidableEq

/-- JavaScript `Map.set` for patterns: replace in place if the id is present,
append otherwise. -/
def mapSetP : List Pattern → Pattern → List Pattern
  | [], p => [p]
  | q :: qs, p => if q.id = p.id then p :: qs else q :: mapSetP qs p

/-- JavaScript `Map.set` for episodes. -/
def mapSetE : List Episode → Episode → List Episode
  | [], e => [e]
  | f :: fs, e => if f.id = e.id then e :: fs else f :: mapSetE fs e

/-- JavaScript `Map.get` for patterns. -/
def mapGetP (l : List Pattern) (id : Str) : Option Pattern :=
  l.find? (fun p => p.id = id)

/-- JavaScript `Map.get` for episodes. -/
def mapGetE (l : List Episode) (id : Str) : Option Episode :=
  l.find? (fun e => e.id = id)

/-- The reason string "Matches contexts: <tags>" (`patternStore.ts`). -/
def matchesReason (matchedContexts : List Str) : Str :=
  "Matches contexts: ".toList ++ List.intercalate ", ".toList matchedContexts

/-- The reason string "Partial match on name or problem" (`patternStore.ts`). -/
def fallbackReason : Str := "Partial match on name or problem".toList

/-- The per-pattern body of `PatternStore.searchPatterns` (identical in the
file-backed and relational sources): accumulate 0.3 per matched context tag,
0.2 for a name hit, 0.2 for a problem overlap, multiply by confidence, and
keep the entry only when the product is positive. -/
def rawScore (context : Str) (pattern : Pattern) : ℚ × List Str :=
  let contextLower := lower context
  let acc := pattern.context.foldl
    (fun (acc : ℚ × List Str) patternContext =>
      if substrB contextLower (lower patternContext) then
        (acc.1 + 3/10, acc.2 ++ [patternContext])
      else acc)
    (0, [])
  let r1 := if substrB contextLower (lower pattern.name) then acc.1 + 2/10 else acc.1
  let r2 :=
    if substrB (lower pattern.problem) contextLower ||
       substrB contextLower (lower pattern.problem) then r1 + 2/10 else r1
  (r2, acc.2)

/-- The entry built from the raw score: multiply by confidence, keep only
positive relevance, cap at 1.0, render the reason string. -/
def searchScore (context : Str) (pattern : Pattern) : Option PatternSearchResult :=
  let rm := rawScore context pattern
  let relevance := rm.1 * pattern.confidence
  if 0 < relevance then
    some { pattern := pattern
           relevance := min relevance 1
           reason := if rm.2.length > 0 then matchesReason rm.2 else fallbackReason }
  else none

/-- `PatternStore.searchPatterns` over an enumeration of stored patterns:
score each pattern, drop zero scores, sort by descending relevance. -/
def searchPatterns (patterns : List Pattern) (context : Str) : List PatternSearchResult :=
  sortByDesc (fun r => r.relevance) (patterns.filterMap (searchScore context))

/-- File-backed `PatternStore.getAllPatterns`: `Array.from(this.patterns.values())`,
the map's insertion order, with no sorting. -/
def getAllPatterns (s : StoreState) : List Pattern := s.patterns

/-- File-backed `PatternStore.getPattern`. -/
def getPattern (s : StoreState) (id : Str) : Option Pattern :=
  mapGetP s.patterns id

/-- File-backed `PatternStore.savePattern`. -/
def savePattern (s : StoreState) (p : Pattern) : StoreState :=
  { s with patterns := mapSetP s.patterns p }

/-- File-backed `PatternStore.saveEpisode`. -/
def saveEpisode (s : StoreState) (e : Episode) : StoreState :=
  { s with episodes := mapSetE s.episodes e }

/-- File-backed `PatternStore.applyPattern`: on a hit, bump `usageCount`,
touch `lastUsedAt`, and return the updated pattern; on a miss return
`none` and leave the store unchanged. -/
def applyPattern (s : StoreState) (patternId : Str) (now : ℚ) :
    StoreState × Option Pattern :=
  match mapGetP s.patterns patternId with
  | none => (s, none)
  | some p =>
    let p' := { p with usageCount := p.usageCount + 1, lastUsedAt := some now }
    ({ s with patterns := mapSetP s.patterns p' }, some p')

/-- File-backed `PatternStore.reinforcePattern`:
`confidence = Math.max(0.1, Math.min(1.0, confidence + adjustment))` with
adjustment +0.05 on success and −0.02 on failure; a miss is a no-op. -/
def reinforcePattern (s : StoreState) (patternId : Str) (success : Bool) : StoreState :=
  match mapGetP s.patterns patternId with
  | none => s
  | some p =>
    let adjustment : ℚ := if success then 5/100 else -(2/100)
    let p' := { p with confidence := max (1/10) (min 1 (p.confidence + adjustment)) }
    { s with patterns := mapSetP s.patterns p' }

/-- The per-episode score of the file-backed `findSimilarEpisodes`: 0.5 when
either lower-cased context contains the other, plus 0.1 per distinct query
token also present among the episode's tokens. -/
def episodeScore (context : Str) (episode : Episode) : ℚ :=
  let contextLower := lower context
  let episodeContextLower := lower episode.context
  let base : ℚ :=
    if substrB episodeContextLower contextLower ||
       substrB contextLower episodeContextLower then 1/2 else 0
  let contextWords := firstDedup (splitWs contextLower)
  let episodeWords := splitWs episodeContextLower
  let commonWords := contextWords.filter (fun w => episodeWords.contains w)
  base + commonWords.length * (1/10)

/-- File-backed `PatternStore.findSimilarEpisodes`: score every episode, sort
by descending score, take the first `limit`, drop zero scores. -/
def findSimilarEpisodes (s : StoreState) (context : Str) (limit : ℕ := 5) : List Episode :=
  let scored := s.episodes.map (fun episode => (episode, episodeScore context episode))
  ((((sortByDesc (fun x => x.2) scored).take limit).filter (fun x => 0 < x.2)).map
    (fun x => x.1))

/-- `PatternExtractor.categorizeOutcome`: case-insensitive substring match,
success vocabulary first, then failure vocabulary, else the partial bucket
(`neutral`). -/
def categorizeOutcome (outcome : Str) : Outcome :=
  let l := lower outcome
  if substrB l "success".toList || substrB l "understood".toList ||
     substrB l "completed".toList || substrB l "solved".toList then .success
  else if substrB l "fail".toList || substrB l "error".toList ||
          substrB l "confused".toList || substrB l "stuck".toList then .failure
  else .neutral

/-- Occurrence-count accumulator, modelling
`counts.set(key, (counts.get(key) || 0) + 1)` on a JavaScript `Map`. -/
def bump : List (Str × ℕ) → Str → List (Str × ℕ)
  | [], w => [(w, 1)]
  | (k, c) :: rest, w =>
    if k = w then (k, c + 1) :: rest else (k, c) :: bump rest w

/-- The length-filtered lower-cased context tokens of one episode
(`patternExtractor.ts`: words of length > 3). -/
def contextTokens (ep : Episode) : List Str :=
  (splitWs (lower ep.context)).filter (fun w => w.length > 3)

/-- Adjacent action pairs rendered as `"<a> → <b>"` (`patternExtractor.ts`). -/
def adjacentPairs : List Str → List Str
  | a :: b :: rest => (a ++ " → ".toList ++ b) :: adjacentPairs (b :: rest)
  | _ => []

/-- `PatternExtractor.findCommonActionPatterns`: count adjacent action pairs
over all episodes, keep those with count ≥ 30% of the episode count, up to 3. -/
def findCommonActionPatterns (episodes : List Episode) : List Str :=
  let actionSequences :=
    episodes.foldl (fun m ep => (adjacentPairs ep.actions).foldl bump m) []
  let threshold : ℚ := episodes.length * (3/10)
  (((actionSequences.filter (fun kc => threshold ≤ (kc.2 : ℚ))).map
    (fun kc => kc.1)).take 3)

/-- `PatternExtractor.generateSolution`. -/
def generateSolution (actionPatterns : List Str) (episodes : List Episode) : Str :=
  match actionPatterns with
  | s :: _ => "Apply the following action sequence: ".toList ++ s
  | [] =>
    match episodes.filter (fun ep => categorizeOutcome ep.outcome = .success) with
    | firstSuccess :: _ =>
      "Follow approach: ".toList ++ List.intercalate ", then ".toList firstSuccess.actions
    | [] => "Analyze the context and apply appropriate actions based on examples".toList

/-- `PatternExtractor.generatePatternId`: lower-case, whitespace runs become
hyphens, every character outside `[a-z0-9-]` is stripped. -/
def generatePatternId (name : Str) : Str :=
  (List.intercalate ['-'] (splitWs (lower name))).filter
    (fun c => (('a' ≤ c ∧ c ≤ 'z') ∨ ('0' ≤ c ∧ c ≤ '9') ∨ c = '-' : Prop))

/-- `PatternExtractor.extractPattern`: `null` below 2 episodes, else synthesize
a pattern from common context tokens, common action pairs, the first 3
episodes as examples, and `min 0.9 successRate` as confidence. -/
def extractPattern (episodes : List Episode) (name : Str) (problemStatement : Str)
    (now : ℚ) : Option Pattern :=
  if episodes.length < 2 then none
  else
    let contextCounts := episodes.foldl (fun m ep => (contextTokens ep).foldl bump m) []
    let threshold : ℚ := episodes.length * (1/2)
    let commonContext :=
      (((contextCounts.filter (fun kc => threshold ≤ (kc.2 : ℚ))).map
        (fun kc => kc.1)).take 5)
    let actionPatterns := findCommonActionPatterns episodes
    let examples : List PatternExample := (episodes.take 3).map (fun ep =>
      { input := ep.context
        output := List.intercalate " → ".toList ep.actions
        outcome := categorizeOutcome ep.outcome })
    let successRate : ℚ :=
      ((episodes.filter (fun ep => categorizeOutcome ep.outcome = .success)).length : ℚ) /
        episodes.length
    some
      { id := generatePatternId name
        name := name
        context := if commonContext.length > 0 then commonContext else ["general".toList]
        problem := problemStatement
        solution := generateSolution actionPatterns episodes
        examples := examples
        relations := []
        confidence := min (9/10) successRate
        usageCount := 0
        createdAt := now
        lastUsedAt := none }

/-- `PatternExtractor.findRelatedPatterns`: every other pattern one of whose
context tags contains, or is contained in, a tag of the new pattern
(case-sensitive, no lower-casing in the source). -/
def findRelatedPatterns (pattern : Pattern) (allPatterns : List Pattern) : List Str :=
  (allPatterns.filter (fun other =>
    other.id ≠ pattern.id ∧
    (pattern.context.filter (fun c =>
      other.context.any (fun oc => substrB oc c || substrB c oc))).length > 0)).map
    (fun other => other.id)

/-- File-backed `PatternStore.extractPatternFromEpisodes`: resolve the ids
against the episode map, give up below 2 resolved episodes, otherwise extract,
attach `leads_to` relations of strength 0.5 to related patterns, and persist. -/
def extractPatternFromEpisodes (s : StoreState) (episodeIds : List Str)
    (patternName : Str) (problemStatement : Str) (now : ℚ) :
    StoreState × Option Pattern :=
  let episodes := episodeIds.filterMap (mapGetE s.episodes)
  if episodes.length < 2 then (s, none)
  else
    match extractPattern episodes patternName problemStatement now with
    | none => (s, none)
    | some pattern =>
      let relatedIds := findRelatedPatterns pattern s.patterns
      let pattern' := { pattern with
        relations := relatedIds.map (fun id =>
          { type := RelType.leads_to, patternId := id, strength := 1/2 }) }
      (savePattern s pattern', some pattern')

/-- Relational `PatternStore.getAllPatterns`:
`SELECT * FROM patterns ORDER BY confidence DESC`. -/
def getAllPatternsPG (table : List Pattern) : List Pattern :=
  sortByDesc (fun p => p.confidence) table

/-- Relational `PatternStore.searchPatterns`: the same scoring body applied to
the confidence-ordered enumeration. -/
def searchPatternsPG (table : List Pattern) (context : Str) : List PatternSearchResult :=
  searchPatterns (getAllPatternsPG table) context

/-- Relational `PatternStore.applyPattern`:
`UPDATE patterns SET usage_count = usage_count + 1, last_used_at = now
WHERE id = $1 RETURNING *`, with the first returned row as the result. -/
def applyPatternPG (table : List Pattern) (patternId : Str) (now : ℚ) :
    List Pattern × Option Pattern :=
  let table' := table.map (fun p =>
    if p.id = patternId then { p with usageCount := p.usageCount + 1, lastUsedAt := some now }
    else p)
  (table', table'.find? (fun p => p.id = patternId))

/-- Relational `PatternStore.reinforcePattern`:
`UPDATE patterns SET confidence = LEAST(1.0, GREATEST(0.1, confidence + adj))
WHERE id = $2`. -/
def reinforcePatternPG (table : List Pattern) (patternId : Str) (success : Bool) :
    List Pattern :=
  let adjustment : ℚ := if success then 5/100 else -(2/100)
  table.map (fun p =>
    if p.id = patternId then { p with confidence := min 1 (max (1/10) (p.confidence + adjustment)) }
    else p)

/-- SQL `LIKE`: `%` matches any sequence, `_` any single character, any other
pattern character matches itself. -/
def likeMatch : Str → Str → Bool
  | [], [] => true
  | _ :: _, [] => false
  | s, p :: ps =>
    if p = '%' then
      likeMatch s ps ||
        (match s with
         | [] => false
         | _ :: t => likeMatch t (p :: ps))
    else
      match s with
      | [] => false
      | c :: t => (p = '_' || c = p) && likeMatch t ps
termination_by s pat => s.length + pat.length

/-- Relational `PatternStore.findSimilarEpisodes`:
`SELECT * FROM episodes WHERE LOWER(context) LIKE $1 OR $2 LIKE LOWER(context)
ORDER BY timestamp DESC LIMIT $3` with `$1 = $2 = '%' || lower(query) || '%'`.
Note that the second disjunct uses the stored context as the LIKE pattern. -/
def findSimilarEpisodesPG (table : List Episode) (context : Str) (limit : ℕ := 5) :
    List Episode :=
  let contextLower : Str := '%' :: (lower context ++ ['%'])
  ((sortByDesc (fun e => e.timestamp)
    (table.filter (fun e =>
      likeMatch (lower e.context) contextLower ||
      likeMatch contextLower (lower e.context)))).take limit)

/-- The seed pattern `progressive-disclosure`, confidence 0.85
(`initializeWithSamplePatterns`, identical in both storage variants). -/
def progressiveDisclosure (now : ℚ) : Pattern :=
  { id := "progressive-disclosure".toList
    name := "Progressive Disclosure".toList
    context := ["user is learning".toList, "complex topic".toList, "beginner level".toList]
    problem := "Too much information at once overwhelms the learner".toList
    solution := "Reveal complexity gradually, starting with core concepts".toList
    examples := [{ input := "Explain recursion".toList
                   output := "Start with simple counting down, then factorial, then tree traversal".toList
                   outcome := .success }]
    relations := []
    confidence := 85/100
    usageCount := 0
    createdAt := now
    lastUsedAt := none }

/-- The seed pattern `concrete-before-abstract`, confidence 0.9. -/
def concreteBeforeAbstract (now : ℚ) : Pattern :=
  { id := "concrete-before-abstract".toList
    name := "Concrete Before Abstract".toList
    context := ["teaching concept".toList, "abstract idea".toList, "user struggling".toList]
    problem := "Abstract concepts are hard to grasp without grounding".toList
    solution := "Provide concrete examples before explaining the abstraction".toList
    examples := [{ input := "Explain interfaces".toList
                   output := "Show USB ports, electrical outlets, then programming interfaces".toList
                   outcome := .success }]
    relations := [{ type := RelType.leads_to
                    patternId := "progressive-disclosure".toList
                    strength := 7/10 }]
    confidence := 9/10
    usageCount := 0
    createdAt := now
    lastUsedAt := none }

/-- The file-backed store right after first-ever initialization: the two seed
patterns in insertion order, no episodes. -/
def seededStore (now : ℚ) : StoreState :=
  { patterns := [progressiveDisclosure now, concreteBeforeAbstract now]
    episodes := [] }

/-- Claim side (C1): the context tags whose lower-cased text is a substring of
the lower-cased query. -/
def matchedTags (query : Str) (p : Pattern) : List Str :=
  p.context.filter (fun t => substrB (lower query) (lower t))

/-- Claim side (C1): the raw score — 0.3 per matched tag, 0.2 when the
lower-cased query contains the lower-cased name, 0.2 when the lower-cased
problem is a substring of the query or vice versa. -/
def claimRaw (query : Str) (p : Pattern) : ℚ :=
  (3/10) * ((matchedTags query p).length : ℚ) +
  (if substrB (lower query) (lower p.name) then 2/10 else 0) +
  (if substrB (lower p.problem) (lower query) || substrB (lower query) (lower p.problem)
   then 2/10 else 0)

/-- Claim side (C1): relevance = min(1.0, confidence * raw). -/
def claimRelevance (query : Str) (p : Pattern) : ℚ :=
  min 1 (p.confidence * claimRaw query p)

/-- Claim side (C1): the reason string. -/
def claimReason (query : Str) (p : Pattern) : Str :=
  if matchedTags query p = [] then fallbackReason else matchesReason (matchedTags query p)

/-- Claim side (C1): the full search result as the claim describes it —
patterns with relevance 0 excluded, the rest sorted descending by relevance. -/
def claimSearch (patterns : List Pattern) (query : Str) : List PatternSearchResult :=
  sortByDesc (fun r => r.relevance)
    (patterns.filterMap (fun p =>
      if claimRelevance query p ≠ 0 then
        some { pattern := p, relevance := claimRelevance query p, reason := claimReason query p }
      else none))

/-- Claim side (C4): episode score — 0.5 for a substring hit either way plus
0.1 per distinct whitespace-delimited token shared between the two lower-cased
token sets (counted via the intersection of the token sets). -/
def claimEpisodeScore (query : Str) (e : Episode) : ℚ :=
  (if substrB (lower e.context) (lower query) || substrB (lower query) (lower e.context)
   then 1/2 else 0) +
  (((splitWs (lower query)).toFinset ∩ (splitWs (lower e.context)).toFinset).card : ℚ) * (1/10)

/-- Claim side (C4): the full similarity pipeline as the claim describes it. -/
def claimSimilar (s : StoreState) (query : Str) (limit : ℕ) : List Episode :=
  (((sortByDesc (fun x => x.2)
      (s.episodes.map (fun e => (e, claimEpisodeScore query e)))).take limit).filter
    (fun x => 0 < x.2)).map (fun x => x.1)

/-- Claim side (C2): clamp into [lo, hi]. -/
def clampQ (lo hi x : ℚ) : ℚ := max lo (min hi x)

/-- Claim side (C3): the outcome's lower-cased text contains one of the
success vocabulary words. -/
def hasSuccessWord (outcome : Str) : Bool :=
  substrB (lower outcome) "success".toList || substrB (lower outcome) "understood".toList ||
  substrB (lower outcome) "completed".toList || substrB (lower outcome) "solved".toList

/-- Is some key of the association list equal to `w`? -/
def hasKey (m : List (Str × ℕ)) (w : Str) : Bool :=
  m.any (fun kc => kc.1 = w)

/-- Claim side (C7, amended): every length-filtered lower-cased context token
of all episodes, in episode-then-position order. -/
def allContextTokens (episodes : List Episode) : List Str :=
  (episodes.map contextTokens).flatten

/-- Claim side (C7, amended): tokens whose total occurrence count across the
episodes' contexts reaches half the episode count, in first-occurrence order. -/
def claimQualifyingTokens (episodes : List Episode) : List Str :=
  (firstDedup (allContextTokens episodes)).filter
    (fun w => ((episodes.length : ℚ) * (1/2) ≤ ((allContextTokens episodes).count w : ℚ) : Prop))

/-- Claim side (C7, amended): the extracted context — the first five
qualifying tokens, or the single tag "general" when none qualify. -/
def claimCommonContext (episodes : List Episode) : List Str :=
  let qual := (claimQualifyingTokens episodes).take 5
  if qual = [] then ["general".toList] else qual

/-- Concrete episode for witnesses: a clean success outcome. -/
def epSuccessA : Episode :=
  { id := "e1".toList
    timestamp := 1
    context := "debugging memory issues".toList
    actions := ["read logs".toList, "add assertions".toList]
    outcome := "problem solved".toList
    patternIds := [] }

/-- Concrete episode for witnesses: an outcome with both a success word and a
failure word ("error"), which must still categorize as success. -/
def epSuccessB : Episode :=
  { id := "e2".toList
    timestamp := 2
    context := "debugging stack overflow".toList
    actions := ["read logs".toList, "add assertions".toList]
    outcome := "success despite error messages".toList
    patternIds := [] }

/-- Concrete episode for witnesses: a failure outcome. -/
def epFailA : Episode :=
  { id := "f1".toList
    timestamp := 3
    context := "deploying the service".toList
    actions := ["push".toList]
    outcome := "got stuck".toList
    patternIds := [] }

/-- Concrete episode for witnesses: another failure outcome. -/
def epFailB : Episode :=
  { id := "f2".toList
    timestamp := 4
    context := "deploying the worker".toList
    actions := ["push".toList]
    outcome := "still confused".toList
    patternIds := [] }

/-- Concrete episode for the C4 counterexample: context "alpha beta". -/
def epSim : Episode :=
  { id := "s1".toList
    timestamp := 1
    context := "alpha beta".toList
    actions := []
    outcome := "done".toList
    patternIds := [] }

/-- Concrete episodes for the C7 counterexample: the token "zzzz" occurs twice
in the first episode's context and in no other episode. -/
def ep7A : Episode :=
  { id := "c1".toList, timestamp := 1, context := "zzzz zzzz".toList
    actions := [], outcome := "done".toList, patternIds := [] }

/-- Second C7 episode. -/
def ep7B : Episode :=
  { id := "c2".toList, timestamp := 2, context := "aaaa".toList
    actions := [], outcome := "done".toList, patternIds := [] }

/-- Third C7 episode. -/
def ep7C : Episode :=
  { id := "c3".toList, timestamp := 3, context := "bbbb".toList
    actions := [], outcome := "done".toList, patternIds := [] }

/-- Fourth C7 episode. -/
def ep7D : Episode :=
  { id := "c4".toList, timestamp := 4, context := "cccc".toList
    actions := [], outcome := "done".toList, patternIds := [] }

/-- The C7 counterexample episode list. -/
def eps7 : List Episode := [ep7A, ep7B, ep7C, ep7D]

theorem insDesc_perm (key : α → ℚ) (x : α) (l : List α) :
    List.Perm (insDesc key x l) (x :: l) := by
  induction l with
  | nil => simp [insDesc]
  | cons y ys ih =>
    simp only [insDesc]
    by_cases h : key y ≤ key x
    · simp [h]
    · simp only [h, if_false]
      exact (ih.cons y).trans (List.Perm.swap x y ys)

theorem sortByDesc_perm (key : α → ℚ) (l : List α) :
    List.Perm (sortByDesc key l) l := by
  induction l with
  | nil => simp [sortByDesc]
  | cons x xs ih =>
    have : sortByDesc key (x :: xs) = insDesc key x (sortByDesc key xs) := rfl
    rw [this]
    exact (insDesc_perm key x (sortByDesc key xs)).trans (ih.cons x)

theorem mem_sortByDesc (key : α → ℚ) (l : List α) (a : α) :
    a ∈ sortByDesc key l ↔ a ∈ l :=
  (sortByDesc_perm key l).mem_iff

theorem mem_insDesc (key : α → ℚ) (x : α) (l : List α) (a : α) :
    a ∈ insDesc key x l ↔ a = x ∨ a ∈ l := by
  rw [(insDesc_perm key x l).mem_iff]
  simp

theorem pairwise_insDesc (key : α → ℚ) (x : α) (l : List α)
    (h : List.Pairwise (fun a b => key b ≤ key a) l) :
    List.Pairwise (fun a b => key b ≤ key a) (insDesc key x l) := by
  induction l with
  | nil => simp [insDesc]
  | cons y ys ih =>
    rcases List.pairwise_cons.mp h with ⟨hy, hys⟩
    simp only [insDesc]
    by_cases hxy : key y ≤ key x
    · rw [if_pos hxy]
      refine List.pairwise_cons.mpr ⟨?_, h⟩
      intro b hb
      rcases List.mem_cons.mp hb with rfl | hb
      · exact hxy
      · exact le_trans (hy b hb) hxy
    · rw [if_neg hxy]
      refine List.pairwise_cons.mpr ⟨?_, ih hys⟩
      intro b hb
      rcases (mem_insDesc key x ys b).mp hb with rfl | hb
      · exact le_of_not_le hxy
      · exact hy b hb

theorem sortByDesc_pairwise (key : α → ℚ) (l : List α) :
    List.Pairwise (fun a b => key b ≤ key a) (sortByDesc key l) := by
  induction l with
  | nil => simp [sortByDesc]
  | cons x xs ih => exact pairwise_insDesc key x (sortByDesc key xs) ih

theorem mem_firstDedup (l : List Str) (a : Str) : a ∈ firstDedup l ↔ a ∈ l := by
  induction l with
  | nil => simp [firstDedup]
  | cons x xs ih =>
    simp only [firstDedup, List.mem_cons, List.mem_filter]
    constructor
    · rintro (rfl | ⟨hmem, _⟩)
      · exact Or.inl rfl
      · exact Or.inr (ih.mp hmem)
    · rintro (rfl | hmem)
      · exact Or.inl rfl
      · by_cases hax : a = x
        · exact Or.inl hax
        · exact Or.inr ⟨ih.mpr hmem, by simpa using hax⟩

theorem nodup_firstDedup (l : List Str) : (firstDedup l).Nodup := by
  induction l with
  | nil => simp [firstDedup]
  | cons x xs ih =>
    simp only [firstDedup]
    refine List.nodup_cons.mpr ⟨?_, ih.filter _⟩
    intro hx
    simpa using (List.mem_filter.mp hx).2

theorem firstDedup_filter (p : Str → Bool) (l : List Str) :
    firstDedup (l.filter p) = (firstDedup l).filter p := by
  induction l with
  | nil => simp [firstDedup]
  | cons x xs ih =>
    by_cases hx : p x = true
    · rw [List.filter_cons, if_pos hx]
      simp only [firstDedup, ih]
      rw [List.filter_cons, if_pos hx, List.filter_filter, List.filter_filter]
      congr 1
      apply List.filter_congr
      intro a _
      exact Bool.and_comm _ _
    · rw [List.filter_cons, if_neg hx]
      simp only [firstDedup, ih]
      rw [List.filter_cons, if_neg hx, List.filter_filter]
      symm
      apply List.filter_congr
      intro a _
      by_cases hax : a = x
      · subst hax
        simp [hx]
      · simp [hax]

theorem searchFold (q : Str) (l : List Str) (r : ℚ) (acc : List Str) :
    l.foldl (fun (a : ℚ × List Str) pc =>
        if substrB q (lower pc) then (a.1 + 3/10, a.2 ++ [pc]) else a) (r, acc)
      = (r + (3/10) * ((l.filter (fun t => substrB q (lower t))).length : ℚ),
         acc ++ l.filter (fun t => substrB q (lower t))) := by
  induction l generalizing r acc with
  | nil => simp
  | cons t ts ih =>
    rw [List.foldl_cons, List.filter_cons]
    by_cases h : substrB q (lower t) = true
    · rw [if_pos h, if_pos h, ih, Prod.mk.injEq]
      refine ⟨by simp only [List.length_cons]; push_cast; ring, by simp⟩
    · rw [if_neg h, if_neg h, ih]

theorem reasonFlip (l : List Str) (a b : Str) :
    (if l.length > 0 then a else b) = (if l = [] then b else a) := by
  by_cases h : l = []
  · simp [h]
  · simp [h, List.length_pos.mpr h]

theorem scoreIte (p : Pattern) (rr : Str) (X : ℚ) (hX : 0 ≤ X) (hc : 0 ≤ p.confidence) :
    (if 0 < X * p.confidence then
       some (PatternSearchResult.mk p (min (X * p.confidence) 1) rr)
     else none)
    = (if min 1 (p.confidence * X) ≠ 0 then
        some (PatternSearchResult.mk p (min 1 (p.confidence * X)) rr)
      else none) := by
  by_cases hpos : 0 < X * p.confidence
  · have hpos' : 0 < p.confidence * X := by rw [mul_comm]; exact hpos
    rw [if_pos hpos, if_pos (lt_min one_pos hpos').ne', min_comm, mul_comm]
  · have hz : p.confidence * X = 0 := by
      rw [mul_comm]
      exact le_antisymm (not_lt.mp hpos) (mul_nonneg hX hc)
    rw [if_neg hpos, if_neg (by simp [hz])]

theorem searchScore_eq (q : Str) (p : Pattern) (h : 0 ≤ p.confidence) :
    searchScore q p =
      if claimRelevance q p ≠ 0 then
        some { pattern := p, relevance := claimRelevance q p, reason := claimReason q p }
      else none := by
  simp only [searchScore, rawScore, claimRelevance, claimReason, claimRaw, matchedTags]
  rw [searchFold]
  simp only [List.nil_append, zero_add]
  rw [reasonFlip]
  set L := p.context.filter (fun t => substrB (lower q) (lower t)) with hL
  set b1 := substrB (lower q) (lower p.name) with hb1
  set b2 := substrB (lower p.problem) (lower q) || substrB (lower q) (lower p.problem) with hb2
  set A : ℚ := (3/10 : ℚ) * (L.length : ℚ) with hA
  have hshape :
      (if b2 then (if b1 then A + 2/10 else A) + 2/10 else (if b1 then A + 2/10 else A))
        = A + (if b1 then (2/10 : ℚ) else 0) + (if b2 then (2/10 : ℚ) else 0) := by
    cases b1 <;> cases b2 <;> simp
  rw [hshape]
  refine scoreIte p _ _ ?_ h
  have hAnn : (0:ℚ) ≤ A := by rw [hA]; positivity
  cases b1 <;> cases b2 <;> simp <;> linarith

theorem sharedTokens_card (a b : List Str) :
    ((firstDedup a).filter (fun w => b.contains w)).length
      = (a.toFinset ∩ b.toFinset).card := by
  have hnd : ((firstDedup a).filter (fun w => b.contains w)).Nodup :=
    (nodup_firstDedup a).filter _
  rw [← List.toFinset_card_of_nodup hnd]
  congr 1
  ext w
  simp [List.mem_filter, mem_firstDedup]

theorem episodeScore_eq (q : Str) (e : Episode) :
    episodeScore q e = claimEpisodeScore q e := by
  simp only [episodeScore, claimEpisodeScore]
  rw [sharedTokens_card]

/-- C4 (amended: restricted to the file-backed variant, as the counterexample
forces): `findSimilarEpisodes` scores each episode 0.5 for a substring hit in
either direction plus 0.1 per distinct shared whitespace token, sorts
descending by score, takes the first `limit`, and drops zero scores
(`claimSimilar` is the transcription of the claim's algorithm). -/
theorem findSimilarEpisodes_eq_claim (s : StoreState) (q : Str) (limit : ℕ) :
    findSimilarEpisodes s q limit = claimSimilar s q limit := by
  simp only [findSimilarEpisodes, claimSimilar]
  have : (fun episode => (episode, episodeScore q episode))
      = (fun e => (e, claimEpisodeScore q e)) := by
    funext e
    rw [episodeScore_eq]
  rw [this]

theorem mapGetP_set_self (l : List Pattern) (p : Pattern) :
    mapGetP (mapSetP l p) p.id = some p := by
  induction l with
  | nil => simp [mapSetP, mapGetP]
  | cons q qs ih =>
    by_cases h : q.id = p.id
    · simp [mapSetP, h, mapGetP]
    · rw [mapSetP, if_neg h]
      unfold mapGetP at ih ⊢
      rw [List.find?_cons_of_neg _ (by simpa using h)]
      exact ih

theorem mapGetP_set_other (l : List Pattern) (p : Pattern) (i : Str) (h : i ≠ p.id) :
    mapGetP (mapSetP l p) i = mapGetP l i := by
  have hp : ¬ (p.id = i) := fun hh => h hh.symm
  induction l with
  | nil =>
    unfold mapSetP mapGetP
    rw [List.find?_cons_of_neg _ (by simpa using hp), List.find?_nil]
  | cons q qs ih =>
    by_cases hq : q.id = p.id
    · rw [mapSetP, if_pos hq]
      unfold mapGetP
      rw [List.find?_cons_of_neg _ (by simpa using hp),
        List.find?_cons_of_neg _ (by simpa [hq] using hp)]
    · rw [mapSetP, if_neg hq]
      unfold mapGetP at ih ⊢
      by_cases hqi : q.id = i
      · rw [List.find?_cons_of_pos _ (by simpa using hqi),
          List.find?_cons_of_pos _ (by simpa using hqi)]
      · rw [List.find?_cons_of_neg _ (by simpa using hqi),
          List.find?_cons_of_neg _ (by simpa using hqi)]
        exact ih

theorem mem_mapSetP (l : List Pattern) (p q : Pattern) (h : q ∈ mapSetP l p) :
    q = p ∨ q ∈ l := by
  induction l with
  | nil => simpa [mapSetP] using h
  | cons r rs ih =>
    by_cases hr : r.id = p.id
    · rw [mapSetP, if_pos hr] at h
      rcases List.mem_cons.mp h with rfl | h
      · exact Or.inl rfl
      · exact Or.inr (List.mem_cons.mpr (Or.inr h))
    · rw [mapSetP, if_neg hr] at h
      rcases List.mem_cons.mp h with rfl | h
      · exact Or.inr (List.mem_cons.mpr (Or.inl rfl))
      · rcases ih h with h1 | h1
        · exact Or.inl h1
        · exact Or.inr (List.mem_cons.mpr (Or.inr h1))

theorem find?_updateAll_self (table : List Pattern) (id : Str) (f : Pattern → Pattern)
    (hid : ∀ p, (f p).id = p.id) :
    (table.map (fun p => if p.id = id then f p else p)).find? (fun p => p.id = id)
      = (table.find? (fun p => p.id = id)).map f := by
  induction table with
  | nil => simp
  | cons q qs ih =>
    by_cases h : q.id = id
    · rw [List.map_cons, if_pos h,
        List.find?_cons_of_pos _ (by simp [hid q, h]),
        List.find?_cons_of_pos _ (by simpa using h), Option.map_some']
    · rw [List.map_cons, if_neg h,
        List.find?_cons_of_neg _ (by simpa using h),
        List.find?_cons_of_neg _ (by simpa using h)]
      exact ih

theorem find?_updateAll_other (table : List Pattern) (id : Str) (f : Pattern → Pattern)
    (hid : ∀ p, (f p).id = p.id) (i : Str) (h : i ≠ id) :
    (table.map (fun p => if p.id = id then f p else p)).find? (fun p => p.id = i)
      = table.find? (fun p => p.id = i) := by
  induction table with
  | nil => simp
  | cons q qs ih =>
    by_cases hq : q.id = id
    · rw [List.map_cons, if_pos hq,
        List.find?_cons_of_neg _ (by simp [hid q, hq]; exact fun hh => h hh.symm),
        List.find?_cons_of_neg _ (by simp [hq]; exact fun hh => h hh.symm)]
      exact ih
    · rw [List.map_cons, if_neg hq]
      by_cases hqi : q.id = i
      · rw [List.find?_cons_of_pos _ (by simpa using hqi),
          List.find?_cons_of_pos _ (by simpa using hqi)]
      · rw [List.find?_cons_of_neg _ (by simpa using hqi),
          List.find?_cons_of_neg _ (by simpa using hqi)]
        exact ih

theorem updateAll_id_of_none (table : List Pattern) (id : Str) (f : Pattern → Pattern)
    (h : table.find? (fun p => p.id = id) = none) :
    table.map (fun p => if p.id = id then f p else p) = table := by
  have hall := List.find?_eq_none.mp h
  have heq : table.map (fun p => if p.id = id then f p else p) = table.map (fun p => p) := by
    apply List.map_congr_left
    intro p hp
    rw [if_neg (by simpa using hall p hp)]
  rw [heq, List.map_id']

theorem hasKey_bump (m : List (Str × ℕ)) (w u : Str) :
    hasKey (bump m w) u = (hasKey m u || u == w) := by
  induction m with
  | nil =>
    simp only [bump, hasKey, List.any_cons, List.any_nil, Bool.or_false, Bool.false_or]
    by_cases h : u = w
    · simp [h]
    · rw [beq_eq_decide]
      rw [decide_eq_decide]
      exact ⟨fun hh => absurd hh.symm h, fun hh => absurd hh h⟩
  | cons kc rest ih =>
    by_cases h : kc.1 = w
    · rw [show bump (kc :: rest) w = (kc.1, kc.2 + 1) :: rest from by
        rw [show (kc :: rest) = ((kc.1, kc.2) :: rest) from by rw [Prod.mk.eta]]
        rw [bump, if_pos h]]
      simp only [hasKey, List.any_cons]
      by_cases hu : u = w
      · simp [h, hu]
      · simp [hu]
    · rw [show bump (kc :: rest) w = (kc.1, kc.2) :: bump rest w from by
        rw [show (kc :: rest) = ((kc.1, kc.2) :: rest) from by rw [Prod.mk.eta]]
        rw [bump, if_neg h]]
      simp only [hasKey, List.any_cons] at ih ⊢
      rw [ih, Bool.or_assoc]

theorem bump_of_not_hasKey (m : List (Str × ℕ)) (w : Str) (h : hasKey m w = false) :
    bump m w = m ++ [(w, 1)] := by
  induction m with
  | nil => rfl
  | cons kc rest ih =>
    simp only [hasKey, List.any_cons, Bool.or_eq_false_iff] at h
    rw [show (kc :: rest) = ((kc.1, kc.2) :: rest) from by rw [Prod.mk.eta]]
    rw [bump, if_neg (by simpa using h.1)]
    rw [ih (by simpa [hasKey] using h.2)]
    simp

theorem bump_map_count (m : List (Str × ℕ)) (w : Str) (cnt : Str → ℕ)
    (hk : hasKey m w = true) (hnd : (m.map Prod.fst).Nodup) :
    (bump m w).map (fun kc => (kc.1, kc.2 + cnt kc.1))
      = m.map (fun kc => (kc.1, kc.2 + cnt kc.1 + if kc.1 = w then 1 else 0)) := by
  induction m with
  | nil => simp [hasKey] at hk
  | cons kc rest ih =>
    rw [List.map_cons] at hnd
    rcases List.nodup_cons.mp hnd with ⟨hknot, hndrest⟩
    by_cases h : kc.1 = w
    · rw [show bump (kc :: rest) w = (kc.1, kc.2 + 1) :: rest from by
        rw [show (kc :: rest) = ((kc.1, kc.2) :: rest) from by rw [Prod.mk.eta]]
        rw [bump, if_pos h]]
      rw [List.map_cons, List.map_cons]
      congr 1
      · rw [if_pos h]
        simp only [Prod.mk.injEq, true_and]
        omega
      · apply List.map_congr_left
        intro qc hq
        have : qc.1 ≠ w := by
          intro hqw
          exact hknot (by
            rw [h, ← hqw]
            exact List.mem_map_of_mem Prod.fst hq)
        rw [if_neg this, add_zero]
    · rw [show bump (kc :: rest) w = (kc.1, kc.2) :: bump rest w from by
        rw [show (kc :: rest) = ((kc.1, kc.2) :: rest) from by rw [Prod.mk.eta]]
        rw [bump, if_neg h]]
      rw [List.map_cons, List.map_cons]
      have hkrest : hasKey rest w = true := by
        simp only [hasKey, List.any_cons] at hk
        rcases Bool.or_eq_true_iff.mp hk with h1 | h1
        · exact absurd (by simpa using h1) h
        · exact h1
      congr 1
      · rw [if_neg h, add_zero]
      · exact ih hkrest hndrest

theorem keys_bump_of_hasKey (m : List (Str × ℕ)) (w : Str) (hk : hasKey m w = true) :
    (bump m w).map Prod.fst = m.map Prod.fst := by
  induction m with
  | nil => simp [hasKey] at hk
  | cons kc rest ih =>
    by_cases h : kc.1 = w
    · rw [show bump (kc :: rest) w = (kc.1, kc.2 + 1) :: rest from by
        rw [show (kc :: rest) = ((kc.1, kc.2) :: rest) from by rw [Prod.mk.eta]]
        rw [bump, if_pos h]]
      simp
    · rw [show bump (kc :: rest) w = (kc.1, kc.2) :: bump rest w from by
        rw [show (kc :: rest) = ((kc.1, kc.2) :: rest) from by rw [Prod.mk.eta]]
        rw [bump, if_neg h]]
      have hkrest : hasKey rest w = true := by
        simp only [hasKey, List.any_cons] at hk
        rcases Bool.or_eq_true_iff.mp hk with h1 | h1
        · exact absurd (by simpa using h1) h
        · exact h1
      simp [ih hkrest]

theorem nodup_keys_bump (m : List (Str × ℕ)) (w : Str)
    (hnd : (m.map Prod.fst).Nodup) : ((bump m w).map Prod.fst).Nodup := by
  cases hk : hasKey m w
  · rw [bump_of_not_hasKey m w hk, List.map_append]
    simp only [List.map_cons, List.map_nil]
    rw [List.nodup_append]
    refine ⟨hnd, List.nodup_singleton w, ?_⟩
    intro u hu hw
    rcases List.mem_singleton.mp hw with rfl
    have : hasKey m u = true := by
      simp only [hasKey, List.any_eq_true]
      rcases List.mem_map.mp hu with ⟨kc, hkc, hfst⟩
      exact ⟨kc, hkc, by simp [hfst]⟩
    rw [this] at hk
    cases hk
  · rw [keys_bump_of_hasKey m w hk]
    exact hnd

theorem firstDedup_append_singleton (ws : List Str) (w : Str) :
    firstDedup (ws ++ [w])
      = if w ∈ ws then firstDedup ws else firstDedup ws ++ [w] := by
  induction ws with
  | nil => simp [firstDedup]
  | cons x xs ih =>
    rw [List.cons_append]
    simp only [firstDedup, ih]
    by_cases hmem : w ∈ xs
    · rw [if_pos hmem, if_pos (List.mem_cons.mpr (Or.inr hmem))]
    · rw [if_neg hmem]
      by_cases hx : w = x
      · rw [if_pos (List.mem_cons.mpr (Or.inl hx)), List.filter_append]
        simp [hx]
      · rw [if_neg (by simp [hx, hmem]), List.filter_append, List.cons_append]
        simp [hx]

theorem bump_update (m : List (Str × ℕ)) (w : Str)
    (hnd : (m.map Prod.fst).Nodup) (hk : hasKey m w = true) :
    bump m w = m.map (fun kc => if kc.1 = w then (kc.1, kc.2 + 1) else kc) := by
  induction m with
  | nil => simp [hasKey] at hk
  | cons kc rest ih =>
    rw [List.map_cons] at hnd
    rcases List.nodup_cons.mp hnd with ⟨hknot, hndrest⟩
    by_cases h : kc.1 = w
    · rw [show bump (kc :: rest) w = (kc.1, kc.2 + 1) :: rest from by
        rw [show (kc :: rest) = ((kc.1, kc.2) :: rest) from by rw [Prod.mk.eta]]
        rw [bump, if_pos h]]
      rw [List.map_cons, if_pos h]
      congr 1
      symm
      have : ∀ qc ∈ rest, (if qc.1 = w then (qc.1, qc.2 + 1) else qc) = qc := by
        intro qc hq
        rw [if_neg]
        intro hqw
        exact hknot (by
          rw [h, ← hqw]
          exact List.mem_map_of_mem Prod.fst hq)
      rw [List.map_congr_left this, List.map_id']
    · rw [show bump (kc :: rest) w = (kc.1, kc.2) :: bump rest w from by
        rw [show (kc :: rest) = ((kc.1, kc.2) :: rest) from by rw [Prod.mk.eta]]
        rw [bump, if_neg h]]
      have hkrest : hasKey rest w = true := by
        simp only [hasKey, List.any_cons] at hk
        rcases Bool.or_eq_true_iff.mp hk with h1 | h1
        · exact absurd (by simpa using h1) h
        · exact h1
      rw [List.map_cons, if_neg h, ih hndrest hkrest, Prod.mk.eta]

theorem hasKey_tokenMap (lst : List Str) (f : Str → ℕ) (w : Str) :
    hasKey (lst.map (fun u => (u, f u))) w = lst.contains w := by
  simp only [hasKey, List.contains_eq_any_beq]
  induction lst with
  | nil => rfl
  | cons u us ih =>
    simp only [List.map_cons, List.any_cons, ih]
    congr 1
    rw [beq_eq_decide, decide_eq_decide]
    exact eq_comm

theorem bumpAll_eq (ws : List Str) :
    ws.foldl bump [] = (firstDedup ws).map (fun w => (w, ws.count w)) := by
  induction ws using List.reverseRecOn with
  | nil => simp [firstDedup]
  | append_singleton xs x ih =>
    rw [List.foldl_append, List.foldl_cons, List.foldl_nil, ih,
      firstDedup_append_singleton]
    by_cases hmem : x ∈ xs
    · rw [if_pos hmem]
      have hkeys : ((List.map (fun w => (w, xs.count w)) (firstDedup xs)).map Prod.fst).Nodup := by
        rw [List.map_map,
          show List.map (Prod.fst ∘ fun u => (u, xs.count u)) (firstDedup xs)
            = List.map id (firstDedup xs) from rfl, List.map_id]
        exact nodup_firstDedup xs
      have hk : hasKey (List.map (fun w => (w, xs.count w)) (firstDedup xs)) x = true := by
        rw [hasKey_tokenMap]
        simp [List.contains, (mem_firstDedup xs x).mpr hmem]
      rw [bump_update _ _ hkeys hk, List.map_map]
      apply List.map_congr_left
      intro u hu
      simp only [Function.comp]
      rw [List.count_append]
      simp only [List.count_cons, List.count_nil, Nat.zero_add]
      by_cases hux : u = x
      · simp [hux]
      · have hbe : ¬ (x == u) = true := by simpa using fun hh => hux hh.symm
        simp [hux, hbe]
    · rw [if_neg hmem]
      have hx : x ∉ firstDedup xs := fun hh => hmem ((mem_firstDedup xs x).mp hh)
      have hk : hasKey (List.map (fun w => (w, xs.count w)) (firstDedup xs)) x = false := by
        rw [hasKey_tokenMap]
        simp [List.contains, hx]
      rw [bump_of_not_hasKey _ _ hk, List.map_append]
      congr 1
      · apply List.map_congr_left
        intro u hu
        have hux : u ≠ x := fun hh => hmem (hh ▸ (mem_firstDedup xs u).mp hu)
        rw [List.count_append]
        simp only [List.count_cons, List.count_nil, Nat.zero_add]
        have hbe : ¬ (x == u) = true := by simpa using fun hh => hux hh.symm
        simp [hbe]
      · simp only [List.map_cons, List.map_nil]
        rw [List.count_append]
        have hc : xs.count x = 0 := List.count_eq_zero.mpr hmem
        simp [hc]

theorem categorize_success_iff (o : Str) :
    categorizeOutcome o = Outcome.success ↔ hasSuccessWord o = true := by
  simp only [categorizeOutcome, hasSuccessWord]
  split_ifs with h1 h2 <;> simp_all

theorem mem_searchPatterns (ps : List Pattern) (q : Str) (r : PatternSearchResult)
    (h : r ∈ searchPatterns ps q) : ∃ p ∈ ps, searchScore q p = some r := by
  rw [searchPatterns, mem_sortByDesc] at h
  exact List.mem_filterMap.mp h

theorem searchScore_some (q : Str) (p : Pattern) (r : PatternSearchResult)
    (h : searchScore q p = some r) : r.pattern = p ∧ p.confidence ≠ 0 := by
  simp only [searchScore] at h
  by_cases hc : 0 < (rawScore q p).1 * p.confidence
  · rw [if_pos hc] at h
    rcases Option.some.inj h with rfl
    refine ⟨rfl, ?_⟩
    intro hzero
    rw [hzero, mul_zero] at hc
    exact lt_irrefl 0 hc
  · rw [if_neg hc] at h
    cases h

theorem clampPG (y : ℚ) : min 1 (max (1/10) y) = clampQ (1/10) 1 y := by
  rw [clampQ, max_min_distrib_left, max_eq_right (by norm_num : (1/10 : ℚ) ≤ 1)]

theorem clampQ_range (y : ℚ) : 1/10 ≤ clampQ (1/10) 1 y ∧ clampQ (1/10) 1 y ≤ 1 := by
  unfold clampQ
  constructor
  · exact le_max_left _ _
  · exact max_le (by norm_num) (min_le_left _ _)

theorem reinforce_preserves (s : StoreState) (id : Str) (b : Bool)
    (h : ∀ p ∈ s.patterns, 1/10 ≤ p.confidence ∧ p.confidence ≤ 1) :
    ∀ p ∈ (reinforcePattern s id b).patterns,
      1/10 ≤ p.confidence ∧ p.confidence ≤ 1 := by
  unfold reinforcePattern
  cases hget : mapGetP s.patterns id with
  | none => exact h
  | some p0 =>
    intro p hp
    rcases mem_mapSetP _ _ _ hp with rfl | hp'
    · exact clampQ_range _
    · exact h p hp'

theorem reinforcePG_preserves (table : List Pattern) (id : Str) (b : Bool)
    (h : ∀ p ∈ table, 1/10 ≤ p.confidence ∧ p.confidence ≤ 1) :
    ∀ p ∈ reinforcePatternPG table id b,
      1/10 ≤ p.confidence ∧ p.confidence ≤ 1 := by
  intro p hp
  unfold reinforcePatternPG at hp
  rcases List.mem_map.mp hp with ⟨q, hq, hfq⟩
  by_cases hid : q.id = id
  · rw [if_pos hid] at hfq
    rw [← hfq]
    simp only
    rw [clampPG]
    exact clampQ_range _
  · rw [if_neg hid] at hfq
    rw [← hfq]
    exact h q hq

theorem substrB_nil_needle (hay : Str) : substrB hay [] = true := by
  cases hay <;> rfl

/-- C1: for every stored pattern enumeration and query, `searchPatterns`
assigns each pattern relevance min(1.0, confidence * raw) with raw gaining
0.3 per matched context tag, 0.2 for a name hit and 0.2 for a problem overlap,
excludes relevance 0, renders the reason strings as described, and sorts the
result descending by relevance (`claimSearch` is the transcription of the
claim's algorithm). -/
theorem claim1_searchPatterns (ps : List Pattern) (q : Str)
    (h : ∀ p ∈ ps, 0 ≤ p.confidence) :
    searchPatterns ps q = claimSearch ps q
      ∧ List.Pairwise (fun a b => b.relevance ≤ a.relevance) (searchPatterns ps q) := by
  constructor
  · rw [searchPatterns, claimSearch]
    congr 1
    apply List.filterMap_congr
    intro p hp
    exact searchScore_eq q p (h p hp)
  · exact sortByDesc_pairwise _ _

/-- Witness for C1 at the seeded store and the query
"user is learning something new". -/
theorem claim1_witness :
    (∀ p ∈ (seededStore 0).patterns, 0 ≤ p.confidence)
      ∧ (searchPatterns (seededStore 0).patterns "user is learning something new".toList
            = claimSearch (seededStore 0).patterns "user is learning something new".toList
        ∧ List.Pairwise (fun a b => b.relevance ≤ a.relevance)
            (searchPatterns (seededStore 0).patterns "user is learning something new".toList)) := by
  have hh : ∀ p ∈ (seededStore 0).patterns, 0 ≤ p.confidence := by
    intro p hp
    rcases List.mem_cons.mp hp with rfl | hp
    · norm_num [progressiveDisclosure]
    rcases List.mem_cons.mp hp with rfl | hp
    · norm_num [concreteBeforeAbstract]
    · cases hp
  exact ⟨hh, claim1_searchPatterns _ _ hh⟩

/-- Counterexample to C4 as stated: on the singleton store whose episode has
context "alpha beta" and the query "beta gamma", the token-overlap scoring
(file-backed variant) returns the episode, while the relational variant's
SQL LIKE filter returns nothing — the two variants are not uniform. -/
theorem claim4_counterexample :
    findSimilarEpisodes ⟨[], [epSim]⟩ "beta gamma".toList 5 = [epSim]
      ∧ findSimilarEpisodesPG [epSim] "beta gamma".toList 5 = [] := by
  constructor
  · norm_num +decide [findSimilarEpisodes, episodeScore, epSim, lower, sortByDesc, insDesc,
      splitWs, splitSingle, dropMid, firstDedup, substrB, startsWithB]
  · simp +decide [findSimilarEpisodesPG, likeMatch, epSim, lower, sortByDesc]

/-- C5 (amended): the relational variant's `getAllPatterns` returns the
stored patterns sorted by descending confidence (a permutation of the table),
while the file-backed variant returns them in map insertion order, unsorted. -/
theorem claim5_getAllPatterns (table : List Pattern) (s : StoreState) :
    List.Pairwise (fun a b => b.confidence ≤ a.confidence) (getAllPatternsPG table)
      ∧ List.Perm (getAllPatternsPG table) table
      ∧ getAllPatterns s = s.patterns :=
  ⟨sortByDesc_pairwise _ _, sortByDesc_perm _ _, rfl⟩

/-- Counterexample to C5 as stated: the freshly seeded file-backed store
already violates the descending-confidence ordering (0.85 before 0.9). -/
theorem claim5_counterexample :
    getAllPatterns (seededStore 0) = [progressiveDisclosure 0, concreteBeforeAbstract 0]
      ∧ ¬ List.Pairwise (fun a b => b.confidence ≤ a.confidence)
          (getAllPatterns (seededStore 0)) := by
  refine ⟨rfl, ?_⟩
  norm_num [getAllPatterns, seededStore, progressiveDisclosure, concreteBeforeAbstract]

theorem reinforcePattern_none (s : StoreState) (id : Str) (b : Bool)
    (h : mapGetP s.patterns id = none) : reinforcePattern s id b = s := by
  unfold reinforcePattern
  rw [h]

theorem reinforcePattern_some (s : StoreState) (id : Str) (b : Bool) (p : Pattern)
    (h : mapGetP s.patterns id = some p) :
    reinforcePattern s id b
      = StoreState.mk
          (mapSetP s.patterns ({ p with confidence :=
            (max (1/10) (min 1 (p.confidence + (if b then 5/100 else -(2/100))))) }))
          s.episodes := by
  unfold reinforcePattern
  rw [h]

theorem applyPattern_none (s : StoreState) (id : Str) (now : ℚ)
    (h : mapGetP s.patterns id = none) : applyPattern s id now = (s, none) := by
  unfold applyPattern
  rw [h]

theorem applyPattern_some (s : StoreState) (id : Str) (now : ℚ) (p : Pattern)
    (h : mapGetP s.patterns id = some p) :
    applyPattern s id now
      = (StoreState.mk
          (mapSetP s.patterns ({ p with usageCount := p.usageCount + 1, lastUsedAt := some now }))
          s.episodes,
         some { p with usageCount := p.usageCount + 1, lastUsedAt := some now }) := by
  unfold applyPattern
  rw [h]

theorem reinforce_fold_preserves (calls : List (Str × Bool)) :
    ∀ (s : StoreState), (∀ p ∈ s.patterns, 1/10 ≤ p.confidence ∧ p.confidence ≤ 1) →
      ∀ p ∈ (calls.foldl (fun t c => reinforcePattern t c.1 c.2) s).patterns,
        1/10 ≤ p.confidence ∧ p.confidence ≤ 1 := by
  induction calls with
  | nil => exact fun s h => h
  | cons c cs ih =>
    intro s h
    rw [List.foldl_cons]
    exact ih _ (reinforce_preserves s c.1 c.2 h)

theorem reinforcePG_fold_preserves (calls : List (Str × Bool)) :
    ∀ (table : List Pattern), (∀ p ∈ table, 1/10 ≤ p.confidence ∧ p.confidence ≤ 1) →
      ∀ p ∈ calls.foldl (fun t c => reinforcePatternPG t c.1 c.2) table,
        1/10 ≤ p.confidence ∧ p.confidence ≤ 1 := by
  induction calls with
  | nil => exact fun table h => h
  | cons c cs ih =>
    intro table h
    rw [List.foldl_cons]
    exact ih _ (reinforcePG_preserves table c.1 c.2 h)

/-- C2: reinforcement clamps confidence into [0.1, 1.0]: each call adjusts the
targeted pattern's confidence to clamp(old ± adjustment, 0.1, 1.0) with +0.05
on success and −0.02 on failure, an unknown id is a no-op, and any sequence of
calls preserves 0.1 ≤ confidence ≤ 1.0 — in both storage variants. -/
theorem claim2_reinforce (s : StoreState) (table : List Pattern) (id : Str) :
    (∀ (b : Bool) (p : Pattern), getPattern s id = some p →
        getPattern (reinforcePattern s id b) id
          = some ({ p with confidence :=
              (clampQ (1/10) 1 (p.confidence + (if b then 5/100 else -(2/100)))) }))
      ∧ (∀ b : Bool, getPattern s id = none → reinforcePattern s id b = s)
      ∧ (∀ calls : List (Str × Bool),
          (∀ p ∈ s.patterns, 1/10 ≤ p.confidence ∧ p.confidence ≤ 1) →
          ∀ p ∈ (calls.foldl (fun t c => reinforcePattern t c.1 c.2) s).patterns,
            1/10 ≤ p.confidence ∧ p.confidence ≤ 1)
      ∧ (∀ (b : Bool) (p : Pattern), table.find? (fun q => q.id = id) = some p →
          (reinforcePatternPG table id b).find? (fun q => q.id = id)
            = some ({ p with confidence :=
                (clampQ (1/10) 1 (p.confidence + (if b then 5/100 else -(2/100)))) }))
      ∧ (∀ b : Bool, table.find? (fun q => q.id = id) = none →
          reinforcePatternPG table id b = table)
      ∧ (∀ calls : List (Str × Bool),
          (∀ p ∈ table, 1/10 ≤ p.confidence ∧ p.confidence ≤ 1) →
          ∀ p ∈ calls.foldl (fun t c => reinforcePatternPG t c.1 c.2) table,
            1/10 ≤ p.confidence ∧ p.confidence ≤ 1) := by
  refine ⟨?_, ?_, ?_, ?_, ?_, ?_⟩
  · intro b p hget
    have hget' : s.patterns.find? (fun q => decide (q.id = id)) = some p := hget
    have hpa := List.find?_some hget'
    have hpid : p.id = id := of_decide_eq_true hpa
    rw [reinforcePattern_some s id b p hget]
    show mapGetP (mapSetP s.patterns _) id = _
    rw [← hpid]
    exact mapGetP_set_self _ _
  · intro b hget
    exact reinforcePattern_none s id b hget
  · exact fun calls h => reinforce_fold_preserves calls s h
  · intro b p hfind
    simp only [reinforcePatternPG]
    rw [find?_updateAll_self table id
      (fun q => { q with confidence := (min 1 (max (1/10) (q.confidence + (if b then 5/100 else -(2/100))))) })
      (fun q => rfl), hfind, Option.map_some']
    congr 1
    rw [clampPG]
  · intro b hfind
    simp only [reinforcePatternPG]
    exact updateAll_id_of_none table id _ hfind
  · exact fun calls h => reinforcePG_fold_preserves calls table h

/-- Witness for C2 at the seeded store: reinforcing `progressive-disclosure`
with success yields confidence clamp(0.85 + 0.05, 0.1, 1.0). -/
theorem claim2_witness :
    getPattern (seededStore 0) "progressive-disclosure".toList
        = some (progressiveDisclosure 0)
      ∧ getPattern (reinforcePattern (seededStore 0) "progressive-disclosure".toList true)
            "progressive-disclosure".toList
          = some ({ progressiveDisclosure 0 with confidence :=
              (clampQ (1/10) 1 ((progressiveDisclosure 0).confidence
                + (if true then 5/100 else -(2/100)))) }) := by
  have hget : getPattern (seededStore 0) "progressive-disclosure".toList
      = some (progressiveDisclosure 0) := rfl
  exact ⟨hget, (claim2_reinforce (seededStore 0) [] "progressive-disclosure".toList).1
    true (progressiveDisclosure 0) hget⟩

/-- C6: `applyPattern` increments the pattern's usageCount by exactly 1, sets
lastUsedAt to the current time, leaves every other field and every other
pattern unchanged, and returns the updated pattern; an unknown id changes
nothing and returns absent — in both storage variants. -/
theorem claim6_applyPattern (s : StoreState) (table : List Pattern) (id : Str) (now : ℚ) :
    (getPattern s id = none → applyPattern s id now = (s, none))
      ∧ (∀ p : Pattern, getPattern s id = some p →
          (applyPattern s id now).2
              = some ({ p with usageCount := p.usageCount + 1, lastUsedAt := some now })
            ∧ getPattern (applyPattern s id now).1 id
              = some ({ p with usageCount := p.usageCount + 1, lastUsedAt := some now })
            ∧ (∀ i : Str, i ≠ id → getPattern (applyPattern s id now).1 i = getPattern s i)
            ∧ (applyPattern s id now).1.episodes = s.episodes)
      ∧ (table.find? (fun q => q.id = id) = none → applyPatternPG table id now = (table, none))
      ∧ (∀ p : Pattern, table.find? (fun q => q.id = id) = some p →
          (applyPatternPG table id now).2
              = some ({ p with usageCount := p.usageCount + 1, lastUsedAt := some now })
            ∧ (applyPatternPG table id now).1.find? (fun q => q.id = id)
              = some ({ p with usageCount := p.usageCount + 1, lastUsedAt := some now })
            ∧ (∀ i : Str, i ≠ id →
                (applyPatternPG table id now).1.find? (fun q => q.id = i)
                  = table.find? (fun q => q.id = i))) := by
  refine ⟨?_, ?_, ?_, ?_⟩
  · exact fun hget => applyPattern_none s id now hget
  · intro p hget
    have hget' : s.patterns.find? (fun q => decide (q.id = id)) = some p := hget
    have hpa := List.find?_some hget'
    have hpid : p.id = id := of_decide_eq_true hpa
    rw [applyPattern_some s id now p hget]
    refine ⟨rfl, ?_, ?_, rfl⟩
    · show mapGetP (mapSetP s.patterns _) id = _
      rw [← hpid]
      exact mapGetP_set_self _ _
    · intro i hi
      show mapGetP (mapSetP s.patterns _) i = _
      exact mapGetP_set_other _ _ i (fun hh => hi (hh.trans hpid))
  · intro hfind
    simp only [applyPatternPG]
    rw [updateAll_id_of_none table id _ hfind, hfind]
  · intro p hfind
    simp only [applyPatternPG]
    rw [find?_updateAll_self table id
      (fun q => { q with usageCount := q.usageCount + 1, lastUsedAt := some now })
      (fun q => rfl), hfind, Option.map_some']
    exact ⟨rfl, rfl, fun i hi => find?_updateAll_other table id
      (fun q => { q with usageCount := q.usageCount + 1, lastUsedAt := some now })
      (fun q => rfl) i hi⟩

/-- Witness for C6 at the seeded store: applying `progressive-disclosure`
returns it with usageCount bumped from 0 to 1 and lastUsedAt set. -/
theorem claim6_witness :
    getPattern (seededStore 0) "progressive-disclosure".toList
        = some (progressiveDisclosure 0)
      ∧ (applyPattern (seededStore 0) "progressive-disclosure".toList 7).2
          = some ({ progressiveDisclosure 0 with
              usageCount := (progressiveDisclosure 0).usageCount + 1
              lastUsedAt := some 7 }) := by
  have hget : getPattern (seededStore 0) "progressive-disclosure".toList
      = some (progressiveDisclosure 0) := rfl
  exact ⟨hget, ((claim6_applyPattern (seededStore 0) [] "progressive-disclosure".toList 7).2.1
    (progressiveDisclosure 0) hget).1⟩

/-- C3: for at least 2 episodes the extracted pattern's confidence is
min(0.9, s/n) where s counts episodes whose lower-cased outcome contains a
success-vocabulary word; the success rule is checked before the failure rule,
so any outcome containing a success word categorizes as success even when it
also contains a failure word. -/
theorem claim3_extract_confidence (episodes : List Episode) (nm pb : Str) (now : ℚ)
    (h : 2 ≤ episodes.length) :
    ∃ p, extractPattern episodes nm pb now = some p
      ∧ p.confidence
          = min (9/10)
              (((episodes.filter (fun e => hasSuccessWord e.outcome)).length : ℚ)
                / (episodes.length : ℚ))
      ∧ ∀ e ∈ episodes, hasSuccessWord e.outcome = true →
          categorizeOutcome e.outcome = Outcome.success := by
  have hfeq : episodes.filter (fun ep => decide (categorizeOutcome ep.outcome = Outcome.success))
      = episodes.filter (fun e => hasSuccessWord e.outcome) := by
    apply List.filter_congr
    intro e he
    cases hsw : hasSuccessWord e.outcome <;> simp_all [categorize_success_iff]
  unfold extractPattern
  rw [if_neg (by omega)]
  refine ⟨_, rfl, ?_, ?_⟩
  · show min (9/10)
        (((episodes.filter (fun ep => decide (categorizeOutcome ep.outcome = Outcome.success))).length : ℚ)
          / (episodes.length : ℚ)) = _
    rw [hfeq]
  · intro e he hsw
    exact (categorize_success_iff e.outcome).mpr hsw

/-- Witness for C3: two episodes both matching the success vocabulary (one of
them also containing "error") yield confidence min(0.9, 2/2) = 0.9. -/
theorem claim3_witness :
    2 ≤ ([epSuccessA, epSuccessB] : List Episode).length
      ∧ ∃ p, extractPattern [epSuccessA, epSuccessB] "Shared Debugging".toList "p".toList 0
            = some p
          ∧ p.confidence = 9/10 := by
  refine ⟨by norm_num, ?_⟩
  rcases claim3_extract_confidence [epSuccessA, epSuccessB] "Shared Debugging".toList
      "p".toList 0 (by norm_num) with ⟨p, hp, hc, _⟩
  refine ⟨p, hp, ?_⟩
  rw [hc]
  norm_num +decide [epSuccessA, epSuccessB, hasSuccessWord, lower, substrB, startsWithB]

/-- C8: when fewer than 2 of the supplied episode ids resolve to stored
episodes, the composed extraction operation returns absent and leaves the
store unchanged, and the extractor itself returns absent for fewer than 2
episodes. -/
theorem claim8_extract_needs_two (s : StoreState) (episodeIds : List Str)
    (nm pb : Str) (now : ℚ)
    (h : (episodeIds.filterMap (mapGetE s.episodes)).length < 2) :
    extractPatternFromEpisodes s episodeIds nm pb now = (s, none)
      ∧ ∀ (eps : List Episode) (nm' pb' : Str) (now' : ℚ),
          eps.length < 2 → extractPattern eps nm' pb' now' = none := by
  constructor
  · simp only [extractPatternFromEpisodes]
    rw [if_pos h]
  · intro eps nm' pb' now' hlen
    unfold extractPattern
    rw [if_pos hlen]

/-- Witness for C8: one stored episode, one id supplied — extraction yields
absent and the store is untouched. -/
theorem claim8_witness :
    ((["e1".toList] : List Str).filterMap
        (mapGetE (StoreState.mk [] [epSuccessA]).episodes)).length < 2
      ∧ extractPatternFromEpisodes (StoreState.mk [] [epSuccessA]) ["e1".toList]
          "n".toList "p".toList 0 = (StoreState.mk [] [epSuccessA], none) := by
  have hlen : ((["e1".toList] : List Str).filterMap
      (mapGetE (StoreState.mk [] [epSuccessA]).episodes)).length < 2 := by
    decide
  exact ⟨hlen, (claim8_extract_needs_two (StoreState.mk [] [epSuccessA]) ["e1".toList]
    "n".toList "p".toList 0 hlen).1⟩

/-- C9: a cluster of at least 2 episodes none of which categorizes as success
extracts a pattern with confidence exactly 0 — below the 0.1 floor the data
model states — and search multiplies by confidence and keeps only positive
relevance, so such a pattern never appears in any search result. -/
theorem claim9_zero_confidence (episodes : List Episode) (nm pb : Str) (now : ℚ)
    (h2 : 2 ≤ episodes.length)
    (hall : ∀ e ∈ episodes, categorizeOutcome e.outcome ≠ Outcome.success) :
    ∃ p, extractPattern episodes nm pb now = some p
      ∧ p.confidence = 0
      ∧ ∀ (ps : List Pattern) (q : Str) (r : PatternSearchResult),
          r ∈ searchPatterns ps q → r.pattern ≠ p := by
  have hfil : episodes.filter (fun ep => decide (categorizeOutcome ep.outcome = Outcome.success))
      = [] := by
    rw [List.filter_eq_nil_iff]
    intro e he
    simp [hall e he]
  obtain ⟨p, hp, hc⟩ : ∃ p, extractPattern episodes nm pb now = some p ∧ p.confidence = 0 := by
    unfold extractPattern
    rw [if_neg (by omega)]
    refine ⟨_, rfl, ?_⟩
    show min (9/10)
        (((episodes.filter (fun ep => decide (categorizeOutcome ep.outcome = Outcome.success))).length : ℚ)
          / (episodes.length : ℚ)) = 0
    rw [hfil]
    norm_num
  refine ⟨p, hp, hc, ?_⟩
  intro ps q r hr heq
  rcases mem_searchPatterns ps q r hr with ⟨pp, hpp, hscore⟩
  rcases searchScore_some q pp r hscore with ⟨hpat, hconf⟩
  apply hconf
  rw [hpat.symm.trans heq]
  exact hc

/-- Witness for C9: two episodes with outcomes "got stuck" and "still
confused" extract a zero-confidence pattern. -/
theorem claim9_witness :
    2 ≤ ([epFailA, epFailB] : List Episode).length
      ∧ (∀ e ∈ ([epFailA, epFailB] : List Episode),
          categorizeOutcome e.outcome ≠ Outcome.success)
      ∧ ∃ p, extractPattern [epFailA, epFailB] "n".toList "p".toList 0 = some p
          ∧ p.confidence = 0
          ∧ ∀ (ps : List Pattern) (q : Str) (r : PatternSearchResult),
              r ∈ searchPatterns ps q → r.pattern ≠ p := by
  have h2 : 2 ≤ ([epFailA, epFailB] : List Episode).length := by norm_num
  have hall : ∀ e ∈ ([epFailA, epFailB] : List Episode),
      categorizeOutcome e.outcome ≠ Outcome.success := by decide
  exact ⟨h2, hall, claim9_zero_confidence [epFailA, epFailB] "n".toList "p".toList 0 h2 hall⟩

theorem listFlip {β : Type} (l : List Str) (a b : β) :
    (if l.length > 0 then a else b) = (if l = [] then b else a) := by
  by_cases h : l = []
  · simp [h]
  · simp [h, List.length_pos.mpr h]

/-- C7 (amended: the qualifying condition is total occurrence count, not
document frequency, as the counterexample forces): a lower-cased context token
of length > 3 is included in the extracted pattern's context exactly when it
is among the first five tokens, in first-occurrence order, whose total number
of occurrences across the episodes' contexts is at least half the episode
count; when no token qualifies the context is the single tag "general"
(`claimCommonContext` transcribes this). -/
theorem claim7_common_context (episodes : List Episode) (nm pb : Str) (now : ℚ)
    (h : 2 ≤ episodes.length) :
    ∃ p, extractPattern episodes nm pb now = some p
      ∧ p.context = claimCommonContext episodes := by
  have hfold : episodes.foldl (fun m ep => (contextTokens ep).foldl bump m) []
      = (firstDedup (allContextTokens episodes)).map
          (fun w => (w, (allContextTokens episodes).count w)) := by
    rw [show episodes.foldl (fun m ep => (contextTokens ep).foldl bump m) []
        = (allContextTokens episodes).foldl bump [] from by
      rw [allContextTokens, List.foldl_flatten, List.foldl_map], bumpAll_eq]
  unfold extractPattern
  rw [if_neg (by omega)]
  refine ⟨_, rfl, ?_⟩
  show (if (List.take 5 _).length > 0 then _ else _) = _
  rw [hfold, List.filter_map, List.map_map, listFlip,
    show List.map ((fun kc => kc.1) ∘ fun w => (w, (allContextTokens episodes).count w))
        (List.filter
          ((fun kc => decide ((episodes.length : ℚ) * (1/2) ≤ (kc.2 : ℚ)))
            ∘ fun w => (w, (allContextTokens episodes).count w))
          (firstDedup (allContextTokens episodes)))
      = List.map (fun w => w)
        (List.filter
          (fun w => decide ((episodes.length : ℚ) * (1/2)
            ≤ ((allContextTokens episodes).count w : ℚ)))
          (firstDedup (allContextTokens episodes))) from rfl,
    List.map_id']
  rfl

/-- Witness for C7 (amended) at the four concrete episodes `eps7`. -/
theorem claim7_witness :
    2 ≤ eps7.length
      ∧ ∃ p, extractPattern eps7 "n".toList "p".toList 0 = some p
          ∧ p.context = claimCommonContext eps7 :=
  ⟨by norm_num [eps7], claim7_common_context eps7 "n".toList "p".toList 0
    (by norm_num [eps7])⟩

/-- Counterexample to C7 as stated: over the four episodes `eps7` the token
"zzzz" occurs twice in a single episode's context, so its total count (2)
reaches half the episode count and it is included in the extracted context,
although it appears in only 1 of the 4 episodes — fewer than half. -/
theorem claim7_counterexample :
    (extractPattern eps7 "n".toList "p".toList 0).map (fun p => p.context)
        = some ["zzzz".toList]
      ∧ (eps7.filter (fun e => (splitWs (lower e.context)).contains "zzzz".toList)).length = 1
      ∧ (1 : ℚ) < (eps7.length : ℚ) * (1/2) := by
  refine ⟨?_, by decide, by norm_num [eps7]⟩
  norm_num +decide [extractPattern, eps7, ep7A, ep7B, ep7C, ep7D, contextTokens, bump,
    splitWs, splitSingle, dropMid, lower, substrB, startsWithB]

/-- C10: with the empty-string query, no context tag and no name can match
(the empty query contains no non-empty string), but the problem-overlap check
fires because the empty query is a substring of every problem text, so every
stored pattern with positive confidence (and non-empty name and tags) is
returned with relevance 0.2 * confidence and the partial-match reason. -/
theorem claim10_empty_query (ps : List Pattern) (p : Pattern)
    (hmem : p ∈ ps) (hpos : 0 < p.confidence) (h1 : p.confidence ≤ 1)
    (hname : p.name ≠ []) (htags : ∀ t ∈ p.context, t ≠ []) :
    ({ pattern := p, relevance := (2/10) * p.confidence, reason := fallbackReason }
      : PatternSearchResult) ∈ searchPatterns ps [] := by
  rw [searchPatterns, mem_sortByDesc]
  apply List.mem_filterMap.mpr
  refine ⟨p, hmem, ?_⟩
  rw [searchScore_eq [] p (le_of_lt hpos)]
  have htagsf : matchedTags [] p = [] := by
    rw [matchedTags, List.filter_eq_nil_iff]
    intro t ht
    simp only [lower, List.map_nil, substrB, List.isEmpty_iff, List.map_eq_nil_iff]
    exact htags t ht
  have hclaimRaw : claimRaw [] p = 2/10 := by
    rw [claimRaw, htagsf]
    rw [if_neg (by
      simp only [lower, List.map_nil, substrB, List.isEmpty_iff, List.map_eq_nil_iff]
      exact hname)]
    rw [if_pos (by
      apply Bool.or_eq_true_iff.mpr
      left
      exact substrB_nil_needle (lower p.problem))]
    norm_num
  have hconfle : (2/10 : ℚ) * p.confidence ≤ 1 := by
    have h2 : (2/10 : ℚ) * p.confidence ≤ (2/10 : ℚ) * 1 :=
      mul_le_mul_of_nonneg_left h1 (by norm_num)
    linarith
  have hrel : claimRelevance [] p = (2/10) * p.confidence := by
    rw [claimRelevance, hclaimRaw, mul_comm]
    exact min_eq_right hconfle
  have hreason : claimReason [] p = fallbackReason := by
    rw [claimReason, if_pos htagsf]
  rw [hrel, hreason, if_pos (mul_pos (by norm_num : (0:ℚ) < 2/10) hpos).ne']

/-- Witness for C10: the seed pattern `progressive-disclosure` is returned for
the empty query with relevance 0.2 * 0.85 and the partial-match reason. -/
theorem claim10_witness :
    progressiveDisclosure 0 ∈ (seededStore 0).patterns
      ∧ 0 < (progressiveDisclosure 0).confidence
      ∧ (progressiveDisclosure 0).confidence ≤ 1
      ∧ (progressiveDisclosure 0).name ≠ []
      ∧ (∀ t ∈ (progressiveDisclosure 0).context, t ≠ [])
      ∧ ({ pattern := progressiveDisclosure 0
           relevance := (2/10) * (progressiveDisclosure 0).confidence
           reason := fallbackReason } : PatternSearchResult)
          ∈ searchPatterns (seededStore 0).patterns [] := by
  have hmem : progressiveDisclosure 0 ∈ (seededStore 0).patterns :=
    List.mem_cons_self _ _
  have hpos : 0 < (progressiveDisclosure 0).confidence := by
    norm_num [progressiveDisclosure]
  have h1 : (progressiveDisclosure 0).confidence ≤ 1 := by
    norm_num [progressiveDisclosure]
  have hname : (progressiveDisclosure 0).name ≠ [] := by decide
  have htags : ∀ t ∈ (progressiveDisclosure 0).context, t ≠ [] := by decide
  exact ⟨hmem, hpos, h1, hname, htags,
    claim10_empty_query (seededStore 0).patterns (progressiveDisclosure 0)
      hmem hpos h1 hname htags⟩
